import Mathlib

/-!
Verification of the Stockfish PGN analysis service (`src/main.py`).

The development shallowly embeds the analysis pipeline of `analyze_pgn`:
the chess-rules capability (python-chess) and the engine adapter are
abstracted as records of functions / explicit parameters, fallible calls
are `Except`, and the envelope construction (`ok` / `fail`) is translated
field by field.  Python's `sorted` is a stable sort and is modelled by
Mathlib's stable `List.insertionSort`.
-/

namespace StockfishPGN

/-- Engine score from one side's perspective: plain centipawns, or a
forced mate in `m` half-moves (negative `m` = the other side mates). -/
inductive Score where
  | cp (v : Int)
  | mateIn (m : Int)
deriving DecidableEq, Repr

/-- Negation of a score, used to flip perspective (python-chess `-score`). -/
def Score.neg : Score → Score
  | .cp v => .cp (-v)
  | .mateIn m => .mateIn (-m)

/-- Embeds `Score.is_mate()` of python-chess. -/
def Score.is_mate : Score → Bool
  | .cp _ => false
  | .mateIn _ => true

/-- Embeds `Score.mate()` of python-chess: the mate distance, `None` for a cp score. -/
def Score.mate : Score → Option Int
  | .cp _ => none
  | .mateIn m => some m

/-- Embeds `Score.score()` of python-chess: the centipawn value, `None` for a mate score. -/
def Score.score : Score → Option Int
  | .cp v => some v
  | .mateIn _ => none

/-- python-chess `PovScore`: a score relative to the side to move, together
with the side to move (`true` = White to move). -/
structure PovScore where
  relative : Score
  whiteToMove : Bool
deriving DecidableEq, Repr

/-- The score seen from White's fixed perspective, negating when Black
is to move (`PovScore.pov(chess.WHITE)`). -/
def PovScore.povWhite (s : PovScore) : Score :=
  if s.whiteToMove then s.relative else s.relative.neg

/-- Embeds `_score_to_cp` (src/main.py lines 25-34): centipawns from White's
perspective; mate scores become the sentinel ±100000. -/
def score_to_cp (score : PovScore) : Option Int :=
  let s := score.povWhite
  if s.is_mate then
    match s.mate with
    | none => none
    | some m => if m > 0 then some 100000 else some (-100000)
  else
    s.score

/-- One entry of a ply's `pvs` array (the `MovePV` shape of src/main.py). -/
structure MovePV where
  rank : Int
  uci : String
  san : String
  eval_cp : Option Int
deriving DecidableEq, Repr

/-- One per-ply record as assembled at src/main.py lines 146-153. -/
structure PlyRecord where
  ply : Nat
  played_uci : String
  played_san : String
  fen_after : String
  eval_cp : Option Int
  pvs : List MovePV
deriving DecidableEq, Repr

/-- One key-moment entry (src/main.py lines 163-168). -/
structure KeyMoment where
  ply : Nat
  played_san : String
  eval_cp : Int
  swing : Int
deriving DecidableEq, Repr

/-- The `details` dict attached to an error: empty, an exception message,
or the `first_illegal_move` record of src/main.py lines 100-106. -/
inductive ErrDetails where
  | empty
  | exception (msg : String)
  | firstIllegal (ply : Nat) (uci : String) (fen_before : String)
deriving DecidableEq, Repr

/-- The `error` object of the envelope. -/
structure ErrorInfo where
  code : String
  message : String
  details : ErrDetails
deriving DecidableEq, Repr

/-- The stable result envelope (src/main.py `ok`, lines 36-43). -/
structure Envelope where
  status : String
  legal : Bool
  per_ply : List PlyRecord
  key_moments : List KeyMoment
  error : Option ErrorInfo
deriving DecidableEq, Repr

/-- Embeds `ok(...)` of src/main.py lines 36-43.  The Python defaults
`per_ply or []` / `key_moments or []` are modelled by `Option.getD`. -/
def mkOk (legal : Bool) (per_ply : Option (List PlyRecord))
    (key_moments : Option (List KeyMoment)) (status : String)
    (error : Option ErrorInfo) : Envelope :=
  { status := status
    legal := legal
    per_ply := per_ply.getD []
    key_moments := key_moments.getD []
    error := error }

/-- Embeds `fail(...)` of src/main.py lines 45-56. -/
def fail (code : String) (message : String) (details : ErrDetails)
    (legal : Bool) (per_ply : Option (List PlyRecord))
    (key_moments : Option (List KeyMoment)) : Envelope :=
  mkOk legal per_ply key_moments "error"
    (some { code := code, message := message, details := details })

/-- The chess-rules capability used by `analyze_pgn` (python-chess board
operations).  `Board` and `Move` stay abstract; `legal_moves` is the
position's legal-move set, `san` is computed against the position the move
is played from, `push` applies a move, `fen` serializes a position and
`fromFen` is the fallible `chess.Board(fen)` constructor. -/
structure ChessOps (Board Move : Type) where
  legal_moves : Board → List Move
  san : Board → Move → String
  push : Board → Move → Board
  fen : Board → String
  uci : Move → String
  fromFen : String → Except String Board

/-- The parsed game returned by `chess.pgn.read_game`: its starting board
(`game.board()`) and its mainline move list (`game.mainline_moves()`). -/
structure Game (Board Move : Type) where
  board : Board
  mainline_moves : List Move

/-- One info dict returned by `engine.analyse` for one multipv line:
`pv` (possibly empty), the optional `score` entry (accessing a missing
score raises, like `item[\x22score\x22]`), and the optional `multipv` rank. -/
structure InfoItem (Move : Type) where
  pv : List Move
  score : Option PovScore
  multipv : Option Int
deriving DecidableEq, Repr

/-- The loop over engine lines at src/main.py lines 122-144: skips lines
with an empty pv, raises (`Except.error`) when a kept line has no score,
builds the `pvs` entries in order and keeps updating `eval_cp_main` from
every rank-1 line. -/
def pvsLoop {B M : Type} (ops : ChessOps B M) (board : B) :
    List (InfoItem M) → List MovePV → Option Int →
    Except String (List MovePV × Option Int)
  | [], pvs, main => .ok (pvs, main)
  | item :: rest, pvs, main =>
    match item.pv with
    | [] => pvsLoop ops board rest pvs main
    | best_move :: _ =>
      match item.score with
      | none => .error "KeyError: score"
      | some sc =>
        let rank := item.multipv.getD 1
        let eval_cp := score_to_cp sc
        let entry : MovePV :=
          { rank := rank, uci := ops.uci best_move, san := ops.san board best_move
            eval_cp := eval_cp }
        pvsLoop ops board rest (pvs ++ [entry])
          (if rank = 1 then eval_cp else main)

/-- The analysis work of one ply (src/main.py lines 113-144): call the
engine on the position after the move, then normalize its lines. -/
def stepAnalysis {B M : Type} (ops : ChessOps B M)
    (analyse : Nat → B → Except String (List (InfoItem M)))
    (ply : Nat) (board : B) : Except String (List MovePV × Option Int) :=
  match analyse ply board with
  | .error e => .error e
  | .ok lines => pvsLoop ops board lines [] none

/-- Outcome of the replay-and-analyse loop: ran to completion, stopped at
an illegal move, or an adapter/engine exception escaped to the outer
`except` handler. -/
inductive RunOutcome where
  | success (per_ply : List PlyRecord)
  | illegal (ply : Nat) (uci : String) (fen_before : String)
  | internal (msg : String)
deriving DecidableEq, Repr

/-- The main loop of src/main.py lines 89-153: for each mainline move,
check legality against the current board before pushing, compute the SAN
from the position before the move, push, analyse the resulting position,
and append the PlyRecord (pvs sorted ascending by rank with Python's
stable sort). -/
def runPlies {B M : Type} [DecidableEq M] (ops : ChessOps B M)
    (analyse : Nat → B → Except String (List (InfoItem M))) :
    Nat → B → List M → List PlyRecord → RunOutcome
  | _, _, [], per_ply => .success per_ply
  | ply, board, move :: rest, per_ply =>
    if move ∈ ops.legal_moves board then
      let san := ops.san board move
      let board1 := ops.push board move
      match stepAnalysis ops analyse (ply + 1) board1 with
      | .error e => .internal e
      | .ok (pvs, eval_cp_main) =>
        let record : PlyRecord :=
          { ply := ply + 1
            played_uci := ops.uci move
            played_san := san
            fen_after := ops.fen board1
            eval_cp := eval_cp_main
            pvs := List.insertionSort (fun a b => a.rank ≤ b.rank) pvs }
        runPlies ops analyse (ply + 1) board1 rest (per_ply ++ [record])
    else
      .illegal (ply + 1) (ops.uci move) (ops.fen board)

/-- The key-moments pass of src/main.py lines 157-169: walk `per_ply`
carrying the previous ply's `eval_cp`, emitting an entry whenever both the
previous and current evaluations are present. -/
def keyMomentsLoop : Option Int → List PlyRecord → List KeyMoment
  | _, [] => []
  | prev, row :: rest =>
    let cur := row.eval_cp
    (match prev, cur with
     | some p, some c =>
       [{ ply := row.ply, played_san := row.played_san, eval_cp := c
          swing := |c - p| }]
     | _, _ => []) ++ keyMomentsLoop cur rest

/-- src/main.py line 171: stable sort of the key moments by descending
swing, keeping the first 5. -/
def selectKeyMoments (per_ply : List PlyRecord) : List KeyMoment :=
  (List.insertionSort (fun a b => b.swing ≤ a.swing)
    (keyMomentsLoop none per_ply)).take 5

/-- The body of the `try` block after the engine is launched
(src/main.py lines 89-173), together with the two handlers that turn a
loop outcome into an envelope (lines 97-107 and 175-177).  Both `fail`
call sites pass no `per_ply`, so it defaults to `[]`. -/
def analyzeAfterEngine {B M : Type} [DecidableEq M] (ops : ChessOps B M)
    (analyse : Nat → B → Except String (List (InfoItem M)))
    (game : Game B M) (board : B) : Envelope :=
  match runPlies ops analyse 0 board game.mainline_moves [] with
  | .illegal ply uci fen_before =>
    fail "ILLEGAL_MOVE" "Move is not legal from reconstructed position."
      (.firstIllegal ply uci fen_before) false none none
  | .internal e =>
    fail "INTERNAL_ERROR" "Unexpected internal error during analysis."
      (.exception e) false none none
  | .success per_ply =>
    mkOk true (some per_ply) (some (selectKeyMoments per_ply)) "ok" none

/-- The start-board computation of src/main.py lines 70-76: an explicit
`initial_fen` goes through the fallible `chess.Board` constructor,
otherwise the board comes from the parsed game. -/
def startBoard {B M : Type} (ops : ChessOps B M) (game : Game B M) :
    Option String → Except String B
  | some f => ops.fromFen f
  | none => .ok game.board

/-- Embeds `analyze_pgn` (src/main.py lines 58-184).  External effects are
parameters: `readGame` is the outcome of `chess.pgn.read_game` (exception,
`None`, or a game), `popen` the outcome of launching Stockfish, `analyse`
the engine adapter.  The second component of the result records whether
`engine.quit()` was invoked by the `finally` block, which runs it exactly
when `engine is not None`, i.e. when `popen` succeeded. -/
def analyze_pgn {B M : Type} [DecidableEq M] (ops : ChessOps B M)
    (readGame : Except String (Option (Game B M)))
    (initial_fen : Option String)
    (popen : Except String Unit)
    (analyse : Nat → B → Except String (List (InfoItem M))) :
    Envelope × Bool :=
  match readGame with
  | .error e =>
    (fail "INVALID_PGN" "Could not parse PGN." (.exception e) false none none,
     false)
  | .ok none =>
    (fail "INVALID_PGN" "Could not parse PGN." .empty false none none, false)
  | .ok (some game) =>
    match startBoard ops game initial_fen with
    | .error e =>
      (fail "INVALID_FEN" "Initial FEN is invalid." (.exception e) false none
        none, false)
    | .ok board =>
      match popen with
      | .error e =>
        (fail "INTERNAL_ERROR" "Unexpected internal error during analysis."
          (.exception e) false none none, false)
      | .ok _ => (analyzeAfterEngine ops analyse game board, true)

/-- Replay a move list from a board by repeated `push`. -/
def replay {B M : Type} (ops : ChessOps B M) (board : B) (moves : List M) : B :=
  moves.foldl ops.push board

/-! Concrete instantiations used to exercise the model: a toy rules
capability on `Nat` boards (the board counts the moves played; the only
legal move from board `b` is the move numbered `b`), a well-behaved
engine, an engine that raises at ply 2, and two small games. -/

/-- Toy chess-rules capability on `Nat` boards and `Nat` moves. -/
def natOps : ChessOps Nat Nat :=
  { legal_moves := fun b => [b]
    san := fun b m => "s" ++ toString b ++ "x" ++ toString m
    push := fun b _ => b + 1
    fen := fun b => "f" ++ toString b
    uci := fun m => "u" ++ toString m
    fromFen := fun _ => .ok 0 }

/-- A toy engine that always returns one principal line. -/
def engOk : Nat → Nat → Except String (List (InfoItem Nat)) :=
  fun _ b =>
    .ok [{ pv := [b]
           score := some { relative := .cp (100 * Int.ofNat b)
                           whiteToMove := b % 2 = 0 }
           multipv := some 1 }]

/-- A toy engine that raises on the analysis call of ply 2. -/
def engBoom : Nat → Nat → Except String (List (InfoItem Nat)) :=
  fun ply b => if ply = 2 then .error "boom" else engOk ply b

/-- A two-move game whose moves are both legal for `natOps`. -/
def gameTwo : Game Nat Nat := { board := 0, mainline_moves := [0, 1] }

/-- A game whose first move is legal and whose second move is illegal
for `natOps`. -/
def gameIll : Game Nat Nat := { board := 0, mainline_moves := [0, 5] }

/-- Two engine lines for one position, a rank-2 line listed before the
rank-1 line. -/
def pvsLines : List (InfoItem Nat) :=
  [{ pv := [7], score := some { relative := .cp 30, whiteToMove := true }
     multipv := some 2 },
   { pv := [8], score := some { relative := .cp 40, whiteToMove := true }
     multipv := some 1 }]

/-- The pvs entries that `pvsLoop` builds from `pvsLines` on board 1. -/
def pvsOut : List MovePV :=
  [{ rank := 2, uci := "u7", san := "s1x7", eval_cp := some 30 },
   { rank := 1, uci := "u8", san := "s1x8", eval_cp := some 40 }]

/-- Three per-ply records with ascending plys and present evaluations. -/
def rowsThree : List PlyRecord :=
  [{ ply := 1, played_uci := "a", played_san := "a", fen_after := "f"
     eval_cp := some 10, pvs := [] },
   { ply := 2, played_uci := "b", played_san := "b", fen_after := "g"
     eval_cp := some 40, pvs := [] },
   { ply := 3, played_uci := "c", played_san := "c", fen_after := "h"
     eval_cp := some 20, pvs := [] }]

/-- The last entry of rank 1 in a pvs list (reflecting that the loop of
src/main.py line 143 lets a later rank-1 line overwrite `eval_cp_main`);
`none` when no entry has rank 1. -/
def rank1Last : List MovePV → Option MovePV
  | [] => none
  | x :: es =>
    match rank1Last es with
    | some e => some e
    | none => if x.rank = 1 then some x else none

/-- Key moments as the spec words them: pair every row with its
predecessor's principal evaluation (the first row has none), keep exactly
the pairs where both evaluations are present, and let the swing be the
absolute difference. -/
def keyMomentsSpec (rows : List PlyRecord) : List KeyMoment :=
  (rows.zip (none :: rows.map PlyRecord.eval_cp)).filterMap fun rp =>
    match rp.2, rp.1.eval_cp with
    | some p, some c =>
      some { ply := rp.1.ply, played_san := rp.1.played_san, eval_cp := c
             swing := |c - p| }
    | _, _ => none

/-- Ordering that `key_moments` must satisfy: strictly larger swing
first, ties broken by the smaller ply index. -/
def kmBefore (a b : KeyMoment) : Prop :=
  b.swing < a.swing ∨ (a.swing = b.swing ∧ a.ply < b.ply)

/-! Helper lemmas shared by the claim theorems. -/

theorem rank1Last_some (es : List MovePV) (e : MovePV)
    (h : rank1Last es = some e) : e.rank = 1 ∧ e ∈ es := by
  induction es with
  | nil => exact absurd h (by simp [rank1Last])
  | cons x es ih =>
    rw [rank1Last] at h
    rcases hr : rank1Last es with _ | e2
    · rw [hr] at h
      by_cases hx : x.rank = 1
      · rw [if_pos hx] at h
        obtain rfl : x = e := by injection h
        exact ⟨hx, List.mem_cons_self x es⟩
      · rw [if_neg hx] at h; exact absurd h (by simp)
    · rw [hr] at h
      obtain rfl : e2 = e := by injection h
      obtain ⟨h1, h2⟩ := ih hr
      exact ⟨h1, List.mem_cons_of_mem x h2⟩

theorem rank1Last_none (es : List MovePV)
    (h : rank1Last es = none) : ∀ e ∈ es, ¬ e.rank = 1 := by
  induction es with
  | nil => intro e he; exact absurd he (by simp)
  | cons x es ih =>
    rw [rank1Last] at h
    rcases hr : rank1Last es with _ | e2
    · rw [hr] at h
      intro e he
      rcases List.mem_cons.mp he with rfl | he2
      · intro hx; rw [if_pos hx] at h; exact absurd h (by simp)
      · exact ih hr e he2
    · rw [hr] at h; exact absurd h (by simp)

theorem pvsLoop_ok_main {B M : Type} (ops : ChessOps B M) (board : B) :
    ∀ (lines : List (InfoItem M)) (pvs0 : List MovePV) (main0 : Option Int)
      (pvs : List MovePV) (main : Option Int),
      pvsLoop ops board lines pvs0 main0 = .ok (pvs, main) →
      ∃ es, pvs = pvs0 ++ es ∧
        main = (match rank1Last es with
                | some e => e.eval_cp
                | none => main0) := by
  intro lines
  induction lines with
  | nil =>
    intro pvs0 main0 pvs main h
    rw [pvsLoop] at h
    injection h with h3
    cases h3
    exact ⟨[], by simp [rank1Last]⟩
  | cons item rest ih =>
    intro pvs0 main0 pvs main h
    rw [pvsLoop] at h
    rcases hpv : item.pv with _ | ⟨best, pvrest⟩
    · rw [hpv] at h
      exact ih pvs0 main0 pvs main h
    · rw [hpv] at h
      rcases hsc : item.score with _ | sc
      · rw [hsc] at h; exact absurd h (by simp)
      · rw [hsc] at h
        obtain ⟨es2, hes2, hmain2⟩ := ih _ _ _ _ h
        refine ⟨{ rank := item.multipv.getD 1, uci := ops.uci best,
                  san := ops.san board best,
                  eval_cp := score_to_cp sc } :: es2, by simpa using hes2, ?_⟩
        rw [hmain2, rank1Last]
        rcases hr : rank1Last es2 with _ | e2
        · by_cases hx : item.multipv.getD 1 = 1
          · rw [if_pos hx, if_pos hx]
          · rw [if_neg hx, if_neg hx]
        · rfl

theorem keyMomentsLoop_zip (rows : List PlyRecord) : ∀ (prev : Option Int),
    keyMomentsLoop prev rows =
      (rows.zip (prev :: rows.map PlyRecord.eval_cp)).filterMap fun rp =>
        match rp.2, rp.1.eval_cp with
        | some p, some c =>
          some { ply := rp.1.ply, played_san := rp.1.played_san, eval_cp := c
                 swing := |c - p| }
        | _, _ => none := by
  induction rows with
  | nil => intro prev; rfl
  | cons row rest ih =>
    intro prev
    rcases hc : row.eval_cp with _ | c <;> rcases prev with _ | p <;>
      simp [keyMomentsLoop, hc, ih]

theorem plys_keyMomentsLoop_sublist (rows : List PlyRecord) :
    ∀ (prev : Option Int),
    ((keyMomentsLoop prev rows).map KeyMoment.ply).Sublist
      (rows.map PlyRecord.ply) := by
  induction rows with
  | nil => intro prev; simp [keyMomentsLoop]
  | cons row rest ih =>
    intro prev
    rcases hc : row.eval_cp with _ | c <;> rcases prev with _ | p <;>
      simp only [keyMomentsLoop, hc, List.map_cons, List.map_append,
        List.nil_append, List.map_nil]
    · exact (ih _).cons _
    · exact (ih _).cons _
    · exact (ih _).cons _
    · exact (ih _).cons₂ _

theorem pairwise_orderedInsert_km (x : KeyMoment) (l : List KeyMoment)
    (hl : l.Pairwise kmBefore) (hply : ∀ y ∈ l, x.ply < y.ply) :
    (List.orderedInsert (fun a b => b.swing ≤ a.swing) x l).Pairwise kmBefore := by
  induction l with
  | nil => simp [List.orderedInsert]
  | cons y ys ih =>
    rw [List.orderedInsert]
    by_cases hle : y.swing ≤ x.swing
    · rw [if_pos hle]
      refine List.Pairwise.cons ?_ hl
      intro z hz
      rcases List.mem_cons.mp hz with rfl | hzys
      · rcases lt_or_eq_of_le hle with hlt | heq
        · exact Or.inl hlt
        · exact Or.inr ⟨heq.symm, hply z (List.mem_cons_self z ys)⟩
      · have hyz := List.rel_of_pairwise_cons hl hzys
        have hzy : z.swing ≤ y.swing := by
          rcases hyz with h1 | ⟨h1, _⟩
          · exact le_of_lt h1
          · exact le_of_eq h1.symm
        have hzx : z.swing ≤ x.swing := le_trans hzy hle
        rcases lt_or_eq_of_le hzx with hlt | heq
        · exact Or.inl hlt
        · exact Or.inr ⟨heq.symm, hply z (List.mem_cons_of_mem y hzys)⟩
    · rw [if_neg hle]
      push_neg at hle
      refine List.Pairwise.cons ?_
        (ih (List.pairwise_cons.mp hl).2
          (fun z hz => hply z (List.mem_cons_of_mem y hz)))
      intro z hz
      rcases (List.mem_orderedInsert _).mp hz with rfl | hzys
      · exact Or.inl hle
      · exact List.rel_of_pairwise_cons hl hzys

theorem pairwise_insertionSort_km (l : List KeyMoment)
    (h : l.Pairwise fun a b => a.ply < b.ply) :
    (List.insertionSort (fun a b => b.swing ≤ a.swing) l).Pairwise kmBefore := by
  induction l with
  | nil => simp [List.insertionSort]
  | cons x xs ih =>
    rw [List.insertionSort]
    obtain ⟨hx, hxs⟩ := List.pairwise_cons.mp h
    exact pairwise_orderedInsert_km x _ (ih hxs)
      (fun y hy => hx y ((List.mem_insertionSort _).mp hy))

theorem runPlies_success_of {B M : Type} [DecidableEq M] (ops : ChessOps B M)
    (analyse : Nat → B → Except String (List (InfoItem M)))
    (moves : List M) : ∀ (n : Nat) (b : B) (acc : List PlyRecord),
    (∀ i (hi : i < moves.length),
      moves.get ⟨i, hi⟩ ∈ ops.legal_moves (replay ops b (moves.take i))) →
    (∀ i (hi : i < moves.length),
      (stepAnalysis ops analyse (n + i + 1)
        (replay ops b (moves.take (i+1)))).isOk = true) →
    ∃ recs, runPlies ops analyse n b moves acc = .success (acc ++ recs) ∧
      recs.map PlyRecord.ply = List.range' (n+1) moves.length := by
  induction moves with
  | nil =>
    intro n b acc _ _
    exact ⟨[], by simp [runPlies], by simp⟩
  | cons m ms ih =>
    intro n b acc hl he
    have hl0 : m ∈ ops.legal_moves b := hl 0 (by simp)
    have he0 : (stepAnalysis ops analyse (n + 1) (ops.push b m)).isOk = true :=
      he 0 (by simp)
    simp only [runPlies]
    rw [if_pos hl0]
    rcases hstep : stepAnalysis ops analyse (n + 1) (ops.push b m) with e | pm
    · rw [hstep] at he0
      exact absurd he0 (by simp [Except.isOk, Except.toBool])
    · rcases pm with ⟨pvs, main⟩
      obtain ⟨recs', hrun', hply'⟩ := ih (n+1) (ops.push b m)
          (acc ++ [{ ply := n + 1, played_uci := ops.uci m,
                     played_san := ops.san b m,
                     fen_after := ops.fen (ops.push b m), eval_cp := main,
                     pvs := List.insertionSort (fun a b => a.rank ≤ b.rank) pvs }])
          (fun i h => hl (i+1) (Nat.succ_lt_succ h))
          (fun i h => by
            have heq : n + 1 + i + 1 = n + (i + 1) + 1 := by omega
            rw [heq]
            exact he (i+1) (Nat.succ_lt_succ h))
      refine ⟨{ ply := n + 1, played_uci := ops.uci m, played_san := ops.san b m,
                fen_after := ops.fen (ops.push b m), eval_cp := main,
                pvs := List.insertionSort (fun a b => a.rank ≤ b.rank) pvs } ::
              recs', ?_, ?_⟩
      · exact hrun'.trans (by simp)
      · simp only [List.map_cons, hply', List.length_cons]
        rw [List.range'_succ]

theorem runPlies_illegal_of {B M : Type} [DecidableEq M] (ops : ChessOps B M)
    (analyse : Nat → B → Except String (List (InfoItem M)))
    (moves : List M) : ∀ (k : Nat) (n : Nat) (b : B) (acc : List PlyRecord)
    (hk : k < moves.length),
    (∀ i (hi : i < k),
      moves.get ⟨i, hi.trans hk⟩ ∈ ops.legal_moves (replay ops b (moves.take i))) →
    moves.get ⟨k, hk⟩ ∉ ops.legal_moves (replay ops b (moves.take k)) →
    (∀ i (hi : i < k),
      (stepAnalysis ops analyse (n + i + 1)
        (replay ops b (moves.take (i+1)))).isOk = true) →
    runPlies ops analyse n b moves acc =
      .illegal (n + k + 1) (ops.uci (moves.get ⟨k, hk⟩))
        (ops.fen (replay ops b (moves.take k))) := by
  induction moves with
  | nil => intro k n b acc hk; exact absurd hk (by simp)
  | cons m ms ih =>
    intro k n b acc hk hl hill he
    rcases k with _ | k
    · simp only [runPlies]
      rw [if_neg (by exact hill)]
      rfl
    · have hl0 : m ∈ ops.legal_moves b := hl 0 (Nat.succ_pos k)
      have he0 : (stepAnalysis ops analyse (n + 1) (ops.push b m)).isOk = true :=
        he 0 (Nat.succ_pos k)
      simp only [runPlies]
      rw [if_pos hl0]
      rcases hstep : stepAnalysis ops analyse (n + 1) (ops.push b m) with e | pm
      · rw [hstep] at he0
        exact absurd he0 (by simp [Except.isOk, Except.toBool])
      · rcases pm with ⟨pvs, main⟩
        have hrec := ih k (n + 1) (ops.push b m)
          (acc ++ [{ ply := n + 1, played_uci := ops.uci m,
                     played_san := ops.san b m,
                     fen_after := ops.fen (ops.push b m), eval_cp := main,
                     pvs := List.insertionSort (fun a b => a.rank ≤ b.rank) pvs }])
          (Nat.lt_of_succ_lt_succ hk)
          (fun i h => hl (i + 1) (Nat.succ_lt_succ h))
          (by exact hill)
          (fun i h => by
            have heq : n + 1 + i + 1 = n + (i + 1) + 1 := by omega
            rw [heq]
            exact he (i + 1) (Nat.succ_lt_succ h))
        have heq2 : n + 1 + k + 1 = n + (k + 1) + 1 := by omega
        rw [heq2] at hrec
        exact hrec

/-! Claim theorems. -/

/-- Claim C1, counterexample.  On the game with a legal first move and an
illegal second move (k = 2), the envelope carries the ILLEGAL_MOVE error
with first_illegal_move ply 2, but `per_ply` is empty: it does not hold
the k - 1 = 1 successfully replayed records the claim asserts. -/
theorem illegal_move_claim_counterexample :
    (analyze_pgn natOps (.ok (some gameIll)) none (.ok ()) engOk).1.status = "error" ∧
    ((analyze_pgn natOps (.ok (some gameIll)) none (.ok ()) engOk).1.error.map
      ErrorInfo.code) = some "ILLEGAL_MOVE" ∧
    ((analyze_pgn natOps (.ok (some gameIll)) none (.ok ()) engOk).1.error.map
      ErrorInfo.details) = some (.firstIllegal 2 "u5" "f1") ∧
    (analyze_pgn natOps (.ok (some gameIll)) none (.ok ()) engOk).1.per_ply.length = 0 ∧
    ¬ (analyze_pgn natOps (.ok (some gameIll)) none (.ok ()) engOk).1.per_ply.length =
      2 - 1 := by
  decide

/-- Claim C1, amended.  For a record whose first k - 1 moves are legal and
whose move at (1-based) ply k is illegal, the envelope has status error,
legal = false, error code ILLEGAL_MOVE with details carrying ply k, the
offending move's uci and the position serialization from before the
attempted move — but `per_ply` is empty (the `fail` call site passes no
partial records), not of length k - 1.  Here k = j + 1 for the 0-based
index j of the offending move. -/
theorem analyze_illegal_envelope {B M : Type} [DecidableEq M] (ops : ChessOps B M)
    (game : Game B M) (initial_fen : Option String) (u : Unit)
    (analyse : Nat → B → Except String (List (InfoItem M))) (board : B) (j : Nat)
    (hfen : startBoard ops game initial_fen = .ok board)
    (hk : j < game.mainline_moves.length)
    (hl : ∀ i (hi : i < j),
      game.mainline_moves.get ⟨i, hi.trans hk⟩ ∈
        ops.legal_moves (replay ops board (game.mainline_moves.take i)))
    (hill : game.mainline_moves.get ⟨j, hk⟩ ∉
        ops.legal_moves (replay ops board (game.mainline_moves.take j)))
    (he : ∀ i (hi : i < j),
      (stepAnalysis ops analyse (i + 1)
        (replay ops board (game.mainline_moves.take (i+1)))).isOk = true) :
    (analyze_pgn ops (.ok (some game)) initial_fen (.ok u) analyse).1.status = "error" ∧
    (analyze_pgn ops (.ok (some game)) initial_fen (.ok u) analyse).1.legal = false ∧
    (analyze_pgn ops (.ok (some game)) initial_fen (.ok u) analyse).1.per_ply = [] ∧
    (analyze_pgn ops (.ok (some game)) initial_fen (.ok u) analyse).1.error =
      some { code := "ILLEGAL_MOVE"
             message := "Move is not legal from reconstructed position."
             details := .firstIllegal (j + 1)
               (ops.uci (game.mainline_moves.get ⟨j, hk⟩))
               (ops.fen (replay ops board (game.mainline_moves.take j))) } := by
  have hrun := runPlies_illegal_of ops analyse game.mainline_moves j 0 board [] hk
    hl hill
    (fun i hi => by
      have heq : 0 + i + 1 = i + 1 := by omega
      rw [heq]; exact he i hi)
  have heq2 : 0 + j + 1 = j + 1 := by omega
  rw [heq2] at hrun
  simp only [analyze_pgn, hfen, analyzeAfterEngine, hrun]
  exact ⟨rfl, rfl, rfl, rfl⟩

/-- Claim C1, witness for the amended theorem at the concrete illegal
game (illegal move at 0-based index 1, ply 2). -/
theorem analyze_illegal_envelope_witness :
    (analyze_pgn natOps (.ok (some gameIll)) none (.ok ()) engOk).1.status = "error" ∧
    (analyze_pgn natOps (.ok (some gameIll)) none (.ok ()) engOk).1.legal = false ∧
    (analyze_pgn natOps (.ok (some gameIll)) none (.ok ()) engOk).1.per_ply = [] ∧
    (analyze_pgn natOps (.ok (some gameIll)) none (.ok ()) engOk).1.error =
      some { code := "ILLEGAL_MOVE"
             message := "Move is not legal from reconstructed position."
             details := .firstIllegal (1 + 1)
               (natOps.uci (gameIll.mainline_moves.get ⟨1, by decide⟩))
               (natOps.fen (replay natOps 0 (gameIll.mainline_moves.take 1))) } :=
  analyze_illegal_envelope natOps gameIll none () engOk 0 1 rfl (by decide)
    (by decide) (by decide) (by decide)

/-- Claim C2, counterexample.  On a game of two legal moves where the
engine's ply-1 analysis succeeds (first conjunct) and its ply-2 call
raises, the envelope carries INTERNAL_ERROR but `per_ply` is empty: the
already computed ply-1 record is discarded, not preserved. -/
theorem internal_error_claim_counterexample :
    (stepAnalysis natOps engBoom 1 (natOps.push 0 0)).isOk = true ∧
    ((analyze_pgn natOps (.ok (some gameTwo)) none (.ok ()) engBoom).1.error.map
      ErrorInfo.code) = some "INTERNAL_ERROR" ∧
    (analyze_pgn natOps (.ok (some gameTwo)) none (.ok ()) engBoom).1.per_ply = [] ∧
    ¬ (analyze_pgn natOps (.ok (some gameTwo)) none (.ok ()) engBoom).1.per_ply.length
      = 1 := by
  decide

/-- Claim C2, amended.  When an engine/adapter failure aborts the replay
loop, the envelope has error code INTERNAL_ERROR, status error, legal
false, and `per_ply` (and `key_moments`) empty: any PlyRecords computed
before the failure are discarded, because the `fail` call site passes no
`per_ply`. -/
theorem analyze_internal_error_envelope {B M : Type} [DecidableEq M]
    (ops : ChessOps B M) (game : Game B M) (initial_fen : Option String) (u : Unit)
    (analyse : Nat → B → Except String (List (InfoItem M))) (board : B) (e : String)
    (hfen : startBoard ops game initial_fen = .ok board)
    (hrun : runPlies ops analyse 0 board game.mainline_moves [] = .internal e) :
    (analyze_pgn ops (.ok (some game)) initial_fen (.ok u) analyse).1.status = "error" ∧
    (analyze_pgn ops (.ok (some game)) initial_fen (.ok u) analyse).1.legal = false ∧
    (analyze_pgn ops (.ok (some game)) initial_fen (.ok u) analyse).1.per_ply = [] ∧
    (analyze_pgn ops (.ok (some game)) initial_fen (.ok u) analyse).1.key_moments = [] ∧
    (analyze_pgn ops (.ok (some game)) initial_fen (.ok u) analyse).1.error =
      some { code := "INTERNAL_ERROR"
             message := "Unexpected internal error during analysis."
             details := .exception e } := by
  simp only [analyze_pgn, hfen, analyzeAfterEngine, hrun]
  exact ⟨rfl, rfl, rfl, rfl, rfl⟩

/-- Claim C2, witness for the amended theorem at the concrete two-move
game whose engine raises at ply 2. -/
theorem analyze_internal_error_envelope_witness :
    (analyze_pgn natOps (.ok (some gameTwo)) none (.ok ()) engBoom).1.status = "error" ∧
    (analyze_pgn natOps (.ok (some gameTwo)) none (.ok ()) engBoom).1.legal = false ∧
    (analyze_pgn natOps (.ok (some gameTwo)) none (.ok ()) engBoom).1.per_ply = [] ∧
    (analyze_pgn natOps (.ok (some gameTwo)) none (.ok ()) engBoom).1.key_moments = [] ∧
    (analyze_pgn natOps (.ok (some gameTwo)) none (.ok ()) engBoom).1.error =
      some { code := "INTERNAL_ERROR"
             message := "Unexpected internal error during analysis."
             details := .exception "boom" } :=
  analyze_internal_error_envelope natOps gameTwo none () engBoom 0 "boom" rfl
    (by decide)

/-- Claim C3.  When the record parses, the start board resolves, the
engine launches, every mainline move is legal in the position replayed
before it, and every per-ply engine analysis succeeds, the envelope has
status ok, legal = true, and `per_ply` holds exactly one record per
mainline move with ply indices exactly 1..N in order with no gaps. -/
theorem analyze_ok_envelope {B M : Type} [DecidableEq M] (ops : ChessOps B M)
    (game : Game B M) (initial_fen : Option String) (u : Unit)
    (analyse : Nat → B → Except String (List (InfoItem M))) (board : B)
    (hfen : startBoard ops game initial_fen = .ok board)
    (hl : ∀ i (hi : i < game.mainline_moves.length),
      game.mainline_moves.get ⟨i, hi⟩ ∈
        ops.legal_moves (replay ops board (game.mainline_moves.take i)))
    (he : ∀ i (hi : i < game.mainline_moves.length),
      (stepAnalysis ops analyse (i + 1)
        (replay ops board (game.mainline_moves.take (i+1)))).isOk = true) :
    (analyze_pgn ops (.ok (some game)) initial_fen (.ok u) analyse).1.status = "ok" ∧
    (analyze_pgn ops (.ok (some game)) initial_fen (.ok u) analyse).1.legal = true ∧
    (analyze_pgn ops (.ok (some game)) initial_fen (.ok u) analyse).1.per_ply.length =
      game.mainline_moves.length ∧
    (analyze_pgn ops (.ok (some game)) initial_fen (.ok u) analyse).1.per_ply.map
      PlyRecord.ply = List.range' 1 game.mainline_moves.length := by
  obtain ⟨recs, hrun, hply⟩ := runPlies_success_of ops analyse
    game.mainline_moves 0 board [] hl
    (fun i hi => by
      have heq : 0 + i + 1 = i + 1 := by omega
      rw [heq]; exact he i hi)
  have hmap : recs.map PlyRecord.ply = List.range' 1 game.mainline_moves.length := hply
  simp only [analyze_pgn, hfen, analyzeAfterEngine, hrun]
  refine ⟨rfl, rfl, ?_, ?_⟩
  · show recs.length = game.mainline_moves.length
    have := congrArg List.length hmap
    simpa using this
  · show recs.map PlyRecord.ply = _
    exact hmap

/-- Claim C3, witness at the concrete two-move all-legal game. -/
theorem analyze_ok_envelope_witness :
    (analyze_pgn natOps (.ok (some gameTwo)) none (.ok ()) engOk).1.status = "ok" ∧
    (analyze_pgn natOps (.ok (some gameTwo)) none (.ok ()) engOk).1.legal = true ∧
    (analyze_pgn natOps (.ok (some gameTwo)) none (.ok ()) engOk).1.per_ply.length =
      gameTwo.mainline_moves.length ∧
    (analyze_pgn natOps (.ok (some gameTwo)) none (.ok ()) engOk).1.per_ply.map
      PlyRecord.ply = List.range' 1 gameTwo.mainline_moves.length :=
  analyze_ok_envelope natOps gameTwo none () engOk 0 rfl (by decide) (by decide)

/-- Claim C4.  The key-moment pass equals its specification: pairing every
row with its predecessor's principal evaluation, an entry exists exactly
when both evaluations are present (so the first ply, which has no
predecessor, never produces one and an absent evaluation on either side
suppresses the entry rather than counting as zero), and its swing is the
absolute difference of the two evaluations. -/
theorem keyMoments_pairing (rows : List PlyRecord) :
    keyMomentsLoop none rows = keyMomentsSpec rows :=
  keyMomentsLoop_zip rows none

/-- Claim C5.  For per-ply rows with strictly ascending ply indices (as
every successful analysis produces), the selected key moments number at
most 5 and are ordered by strictly descending swing with ties broken by
the smaller ply index first. -/
theorem keyMoments_top5_sorted (rows : List PlyRecord)
    (h : rows.Pairwise fun a b => a.ply < b.ply) :
    (selectKeyMoments rows).length ≤ 5 ∧
      (selectKeyMoments rows).Pairwise kmBefore := by
  constructor
  · rw [selectKeyMoments]
    exact le_trans (le_of_eq (List.length_take _ _)) (min_le_left _ _)
  · rw [selectKeyMoments]
    refine List.Pairwise.sublist (List.take_sublist _ _) ?_
    refine pairwise_insertionSort_km _ ?_
    have hplys : ((keyMomentsLoop none rows).map KeyMoment.ply).Pairwise (· < ·) := by
      refine List.Pairwise.sublist (plys_keyMomentsLoop_sublist rows none) ?_
      exact List.pairwise_map.mpr h
    exact List.pairwise_map.mp hplys

/-- Claim C5, witness at three concrete rows (swings 30 and 20). -/
theorem keyMoments_top5_sorted_witness :
    rowsThree.Pairwise (fun a b => a.ply < b.ply) ∧
    ((selectKeyMoments rowsThree).length ≤ 5 ∧
      (selectKeyMoments rowsThree).Pairwise kmBefore) :=
  ⟨by decide, keyMoments_top5_sorted rowsThree (by decide)⟩

/-- Claim C6.  A score that is a forced mate in m from the fixed White
reference perspective converts to exactly +100000 when the mate favors
White (m > 0) and exactly -100000 when it favors the opponent (m < 0),
never a small centipawn value. -/
theorem score_to_cp_mate_sentinel (s : PovScore) (m : Int)
    (h : s.povWhite = .mateIn m) :
    (0 < m → score_to_cp s = some 100000) ∧
    (m < 0 → score_to_cp s = some (-100000)) := by
  constructor <;> intro hm <;>
    simp only [score_to_cp, h, Score.is_mate, Score.mate, if_true]
  · have hm' : m > 0 := hm
    rw [if_pos hm']
  · have hm' : ¬ m > 0 := by omega
    rw [if_neg hm']

/-- Claim C6, witness at mate-in-3 and mate-in-minus-2 scores. -/
theorem score_to_cp_mate_sentinel_witness :
    score_to_cp { relative := .mateIn 3, whiteToMove := true } = some 100000 ∧
    score_to_cp { relative := .mateIn (-2), whiteToMove := true } = some (-100000) :=
  ⟨(score_to_cp_mate_sentinel { relative := .mateIn 3, whiteToMove := true } 3
      (by decide)).1 (by decide),
   (score_to_cp_mate_sentinel { relative := .mateIn (-2), whiteToMove := true } (-2)
      (by decide)).2 (by decide)⟩

/-- Claim C7.  The score conversion feeding every PlyRecord and pvs entry
depends only on the score as seen from the fixed White reference
perspective: two engine scores with the same White-perspective value
convert identically no matter which side is to move, so evaluations at
consecutive plies (played by alternating sides) are directly comparable. -/
theorem score_to_cp_fixed_perspective (s t : PovScore)
    (h : s.povWhite = t.povWhite) : score_to_cp s = score_to_cp t := by
  simp only [score_to_cp, h]

/-- Claim C7, witness: a +50 relative score with White to move and a -50
relative score with Black to move are the same White-perspective score
and convert identically. -/
theorem score_to_cp_fixed_perspective_witness :
    score_to_cp { relative := .cp 50, whiteToMove := true } =
      score_to_cp { relative := .cp (-50), whiteToMove := false } :=
  score_to_cp_fixed_perspective { relative := .cp 50, whiteToMove := true }
    { relative := .cp (-50), whiteToMove := false } (by decide)

/-- Claim C8.  The per-ply principal evaluation produced by the engine
line loop equals the evaluation of the (last) rank-1 entry among the kept
(non-empty-pv) candidate lines when one exists, and is absent when no
kept candidate carries rank 1; it is never taken from an entry of another
rank (the second and third conjuncts pin down what `rank1Last` returns). -/
theorem eval_cp_rank1_characterization {B M : Type} (ops : ChessOps B M)
    (board : B) (lines : List (InfoItem M)) (pvs : List MovePV)
    (main : Option Int)
    (h : pvsLoop ops board lines [] none = .ok (pvs, main)) :
    main = (match rank1Last pvs with
            | some e => e.eval_cp
            | none => none) ∧
    (∀ e, rank1Last pvs = some e → e.rank = 1 ∧ e ∈ pvs) ∧
    (rank1Last pvs = none → ∀ e ∈ pvs, ¬ e.rank = 1) := by
  obtain ⟨es, hes, hmain⟩ := pvsLoop_ok_main ops board lines [] none pvs main h
  have hpe : pvs = es := by simpa using hes
  subst hpe
  exact ⟨hmain, fun e hse => rank1Last_some _ e hse, fun hn => rank1Last_none _ hn⟩

/-- Claim C8, witness at two concrete lines with ranks 2 and 1: the
principal evaluation is the rank-1 line's 40, not the rank-2 line's 30. -/
theorem eval_cp_rank1_characterization_witness :
    some 40 = (match rank1Last pvsOut with
               | some e => e.eval_cp
               | none => none) ∧
    (∀ e, rank1Last pvsOut = some e → e.rank = 1 ∧ e ∈ pvsOut) ∧
    (rank1Last pvsOut = none → ∀ e ∈ pvsOut, ¬ e.rank = 1) :=
  eval_cp_rank1_characterization natOps 1 pvsLines pvsOut (some 40) rfl

/-- Claim C9.  Whenever the engine session is acquired (the record parsed,
the start board resolved and `popen` succeeded), the returned pair's
second component — which records that the `finally` block invoked
`engine.quit()` — is true on every exit path: success, illegal move, and
internal error all flow through `analyzeAfterEngine`, whose result is
paired with `true`. -/
theorem engine_quit_on_exit_paths {B M : Type} [DecidableEq M] (ops : ChessOps B M)
    (game : Game B M) (initial_fen : Option String) (u : Unit)
    (analyse : Nat → B → Except String (List (InfoItem M))) (board : B)
    (hfen : startBoard ops game initial_fen = .ok board) :
    (analyze_pgn ops (.ok (some game)) initial_fen (.ok u) analyse).2 = true := by
  simp only [analyze_pgn, hfen]

/-- Claim C9, witness on the early-terminating illegal-move game: the
session is still released. -/
theorem engine_quit_on_exit_paths_witness :
    (analyze_pgn natOps (.ok (some gameIll)) none (.ok ()) engOk).2 = true :=
  engine_quit_on_exit_paths natOps gameIll none () engOk 0 rfl

/-- Claim C10.  Every envelope returned with status error has
legal = false, whatever the cause: `fail` is the only producer of the
error status and every call site leaves `legal` at its false default,
while the ok envelope carries status ok. -/
theorem error_status_legal_false {B M : Type} [DecidableEq M] (ops : ChessOps B M)
    (readGame : Except String (Option (Game B M))) (initial_fen : Option String)
    (popen : Except String Unit)
    (analyse : Nat → B → Except String (List (InfoItem M)))
    (h : (analyze_pgn ops readGame initial_fen popen analyse).1.status = "error") :
    (analyze_pgn ops readGame initial_fen popen analyse).1.legal = false := by
  rcases readGame with e | og
  · rfl
  · rcases og with _ | game
    · rfl
    · rcases hfen : startBoard ops game initial_fen with e | board <;>
        simp only [analyze_pgn, hfen] at h ⊢
      · rfl
      · rcases popen with e | u
        · rfl
        · simp only [analyzeAfterEngine] at h ⊢
          rcases hrun : runPlies ops analyse 0 board game.mainline_moves [] with
            recs | ⟨p, uc, fb⟩ | msg
          · rw [hrun] at h
            simp [mkOk] at h
          · rfl
          · rfl

/-- Claim C10, witness on an unparseable record (read_game returned
None). -/
theorem error_status_legal_false_witness :
    (analyze_pgn natOps (.ok none) none (.ok ()) engOk).1.status = "error" ∧
    (analyze_pgn natOps (.ok none) none (.ok ()) engOk).1.legal = false :=
  ⟨rfl, error_status_legal_false natOps (.ok none) none (.ok ()) engOk rfl⟩

end StockfishPGN
